import Mathlib

/-!
Verification of the `cmd` package of the tg-chat-ai-rag Telegram bot
(`src/cmd/aibot.go` and its variant `src/unnamed/part_000`).

The Go code is shallowly embedded: every external service call (OpenAI
embeddings and chat completions, Pinecone client/index/upsert/query, the
XML/JSON decoders of the standard library, HTTP downloads, and the clock)
is a field of a `BotEnv` record, and each Go function becomes a Lean
function from a `BotEnv` and its arguments to its result together with
the list of requests it submitted to each external service.  Strings are
modelled by Lean `String` (the suffix checks of the classifier compare
ASCII patterns, for which byte-level and character-level suffix matching
coincide).  A Go runtime panic (index out of range) is modelled by an
explicit `panic` outcome constructor.
-/

set_option maxHeartbeats 1000000

/-- A JSON-compatible value, the model of Go `interface{}` values produced
by `json.Unmarshal` and of `structpb`-convertible metadata maps. -/
inductive JsonValue where
  | str (s : String)
  | num (x : Int)
  | bool (b : Bool)
  | null
  | arr (xs : List JsonValue)
  | obj (fields : List (String × JsonValue))

/-- A decoded JSON object (`map[string]interface{}` in Go). -/
abbrev JsonObject := List (String × JsonValue)

/-- OpenAI embedding request (`openai.EmbeddingRequest`). -/
structure EmbeddingRequest where
  model : String
  input : List String
deriving DecidableEq

/-- One entry of an OpenAI embedding response (`resp.Data[i]`). -/
structure EmbeddingData where
  embedding : List Float

/-- OpenAI embedding response (`resp` of `CreateEmbeddings`). -/
structure EmbeddingResponse where
  data : List EmbeddingData

/-- A chat message (`openai.ChatCompletionMessage`). -/
structure ChatMessage where
  role : String
  content : String

/-- OpenAI chat completion request (`openai.ChatCompletionRequest`). -/
structure ChatCompletionRequest where
  model : String
  messages : List ChatMessage

/-- One choice of a chat completion response (`resp.Choices[i]`). -/
structure ChatChoice where
  message : ChatMessage

/-- OpenAI chat completion response. -/
structure ChatCompletionResponse where
  choices : List ChatChoice

/-- A Pinecone vector record (`pinecone.Vector`). -/
structure PineconeVector where
  id : String
  values : List Float
  metadata : JsonObject

/-- One scored match of a Pinecone query response. -/
structure ScoredVector where
  vector : PineconeVector
  score : Float

/-- Pinecone query response (`pinecone.QueryVectorsResponse`); the
match list is the Go field `Matches`. -/
structure QueryVectorsResponse where
  Matches : List ScoredVector

/-- Pinecone nearest-neighbour query request
(`pinecone.QueryByVectorValuesRequest`). -/
structure QueryByVectorValuesRequest where
  vector : List Float
  topK : Nat
  includeValues : Bool
  includeMetadata : Bool

/-- The XML `<offer>` element of `processAndUploadXML`. -/
structure Offer where
  name : String
  description : String
  price : String

/-- The XML catalog schema of `processAndUploadXML` (`YmlCatalog`). -/
structure YmlCatalog where
  offers : List Offer

/-- The external world of the bot: each field models one external call
site (OpenAI, Pinecone, the XML/JSON decoders, HTTP download, the clock).
The Go code is deterministic glue around these. -/
structure BotEnv where
  createEmbeddings : EmbeddingRequest → Except String EmbeddingResponse
  createChatCompletion : ChatCompletionRequest → Except String ChatCompletionResponse
  marshal : JsonObject → String
  pcNewClient : Except String Unit
  pcConnect : String → Except String Unit
  pcToStruct : JsonObject → Except String JsonObject
  pcQuery : QueryByVectorValuesRequest → Except String QueryVectorsResponse
  pcUpsert : List PineconeVector → Except String Unit
  xmlDecode : List UInt8 → Except String YmlCatalog
  jsonDecode : List UInt8 → Except String JsonObject
  download : String → Except String (List UInt8)
  now : Int

/- ## File classifier (`isPDF`, `isJSON`, `isXML`, `isURL`) -/

/-- `isPDF` from the source:
`len(fileName) > 4 && fileName[len(fileName)-4:] == ".pdf"`. -/
def isPDF (fileName : String) : Bool :=
  decide (fileName.data.length > 4) &&
    decide (fileName.data.drop (fileName.data.length - 4) = ".pdf".data)

/-- `isJSON` from the source:
`len(fileName) > 5 && fileName[len(fileName)-5:] == ".json"`. -/
def isJSON (fileName : String) : Bool :=
  decide (fileName.data.length > 5) &&
    decide (fileName.data.drop (fileName.data.length - 5) = ".json".data)

/-- `isXML` from the source:
`len(fileName) > 4 && fileName[len(fileName)-4:] == ".xml"`. -/
def isXML (fileName : String) : Bool :=
  decide (fileName.data.length > 4) &&
    decide (fileName.data.drop (fileName.data.length - 4) = ".xml".data)

/-- `isURL` from the source:
`strings.HasPrefix(input, "http://") || strings.HasPrefix(input, "https://")`. -/
def isURL (input : String) : Bool :=
  "http://".data.isPrefixOf input.data || "https://".data.isPrefixOf input.data

/-- The four file formats the bot distinguishes. -/
inductive FileFormat where
  | pdf
  | json
  | xml
  | unknown
deriving DecidableEq

/-- The file classifier: the `isPDF`/`isJSON`/`isXML` dispatch chain of
the `OnDocument` handler in `src/cmd/aibot.go`. -/
def classifyFile (fileName : String) : FileFormat :=
  if isPDF fileName then .pdf
  else if isJSON fileName then .json
  else if isXML fileName then .xml
  else .unknown

/- ## Tag stripping (`cleanText`)

`cleanText` applies `regexp.MustCompile("<[^>]*>").ReplaceAllString(input, "")`.
For this pattern the leftmost non-overlapping replacement is: on a `<`,
if some `>` occurs later, delete through the first such `>` and continue
after it; otherwise keep the `<` (no match starts there) and continue. -/

/-- Scan for the first `>`; on success return the remainder after it
(the continuation point of the regex match that started at a `<`). -/
def dropTag : List Char → Option (List Char)
  | [] => none
  | c :: rest => if c = '>' then some rest else dropTag rest

theorem dropTag_length : ∀ l r, dropTag l = some r → r.length < l.length := by
  intro l
  induction l with
  | nil => intro r h; simp [dropTag] at h
  | cons c rest ih =>
    intro r h
    by_cases hc : c = '>'
    · simp [dropTag, hc] at h
      subst h
      simp
    · simp [dropTag, hc] at h
      have := ih r h
      simp
      omega

/-- The character list form of `cleanText`: leftmost non-overlapping
removal of every `<[^>]*>` match. -/
def cleanTextAux (l : List Char) : List Char :=
  match l with
  | [] => []
  | c :: rest =>
    if c = '<' then
      match hd : dropTag rest with
      | some rest' => cleanTextAux rest'
      | none => c :: cleanTextAux rest
    else c :: cleanTextAux rest
termination_by l.length
decreasing_by
  · have := dropTag_length rest rest' hd
    simp
    omega
  · simp
  · simp

/-- `cleanText` from the source (regex tag removal). -/
def cleanText (input : String) : String :=
  ⟨cleanTextAux input.data⟩

/- ## External-call wrappers -/

/-- The embedding request `getQueryEmbeddingFromOpenAI` builds:
model `"text-embedding-ada-002"`, input list `[]string{query}`. -/
def embeddingRequestFor (query : String) : EmbeddingRequest :=
  { model := "text-embedding-ada-002", input := [query] }

/-- `getQueryEmbeddingFromOpenAI` from the source, paired with the list
of embedding requests it submitted (always exactly one). -/
def getQueryEmbeddingFromOpenAI (env : BotEnv) (query : String) :
    Except String (List Float) × List EmbeddingRequest :=
  (match env.createEmbeddings (embeddingRequestFor query) with
   | .error e => .error ("Помилка створення ембеддингів через OpenAI: " ++ e)
   | .ok resp =>
     match resp.data with
     | [] => .error "OpenAI не повернув векторів."
     | d :: _ => .ok d.embedding,
   [embeddingRequestFor query])

/-- `searchPinecone` from `src/cmd/aibot.go`, paired with the list of
query requests it submitted to the index (none when client creation or
the index connection fails). -/
def searchPinecone (env : BotEnv) (embedding : List Float) :
    Except String QueryVectorsResponse × List QueryByVectorValuesRequest :=
  match env.pcNewClient with
  | .error e => (.error ("Помилка створення клієнта Pinecone: " ++ e), [])
  | .ok _ =>
    match env.pcConnect "host-url" with
    | .error e => (.error ("Помилка підключення до індексу: " ++ e), [])
    | .ok _ =>
      let req : QueryByVectorValuesRequest :=
        { vector := embedding, topK := 5, includeValues := true, includeMetadata := true }
      match env.pcQuery req with
      | .error e => (.error ("Помилка запиту до Pinecone: " ++ e), [req])
      | .ok resp => (.ok resp, [req])

/-- `upsertVectorToPinecone` from `src/cmd/aibot.go`, paired with the
list of `UpsertVectors` requests it submitted.  The single record's
identifier is `"doc-" ++ <unix seconds>` (`fmt.Sprintf("doc-%d",
time.Now().Unix())`). -/
def upsertVectorToPinecone (env : BotEnv) (embedding : List Float)
    (metadata : JsonObject) :
    Except String Unit × List (List PineconeVector) :=
  match env.pcNewClient with
  | .error e => (.error ("Помилка створення Pinecone клієнта: " ++ e), [])
  | .ok _ =>
    match env.pcConnect "host-url" with
    | .error e => (.error ("Помилка підключення до індексу: " ++ e), [])
    | .ok _ =>
      match env.pcToStruct metadata with
      | .error e => (.error ("Помилка перетворення метаданих: " ++ e), [])
      | .ok metadataStruct =>
        let records : List PineconeVector :=
          [{ id := "doc-" ++ toString env.now,
             values := embedding,
             metadata := metadataStruct }]
        match env.pcUpsert records with
        | .error e => (.error ("Запит UpsertVectors не вдався: " ++ e), [records])
        | .ok _ => (.ok (), [records])

/-- The identifiers of all records submitted by an upsert call. -/
def upsertIds (r : Except String Unit × List (List PineconeVector)) : List String :=
  r.2.flatten.map (fun v => v.id)

/- ## Answer composer (`generateFinalAnswerFromOpenAI`) -/

/-- The outcome of the answer composer.  `panic` models the Go runtime
panic raised by `resp.Choices[0]` on an empty slice. -/
inductive CompletionOutcome where
  | answer (text : String)
  | error (msg : String)
  | panic

/-- `true` exactly on the `error` outcome. -/
def outcomeIsError : CompletionOutcome → Bool
  | .error _ => true
  | _ => false

/-- The serialized match context built by the loop of
`generateFinalAnswerFromOpenAI` in `src/cmd/aibot.go`. -/
def resultsDescriptionFor (env : BotEnv) (mtchs : QueryVectorsResponse) : String :=
  mtchs.Matches.foldl
    (fun acc m =>
      acc ++ "ID: " ++ m.vector.id ++ "\nМетадані: " ++ env.marshal m.vector.metadata ++ "\n\n")
    ""

/-- The chat completion request `generateFinalAnswerFromOpenAI` builds. -/
def chatRequestFor (env : BotEnv) (query : String) (mtchs : QueryVectorsResponse) :
    ChatCompletionRequest :=
  { model := "gpt-4o",
    messages :=
      [{ role := "system",
         content := "Ти чат-асистент, який базується на векторній базі даних Pinecone. Відповіді мають ґрунтуватися на релевантній інформації." },
       { role := "user",
         content := "Ось ваш запит: " ++ query ++ ".\nОсь знайдені дані з Pinecone: "
           ++ resultsDescriptionFor env mtchs }] }

/-- `generateFinalAnswerFromOpenAI` from `src/cmd/aibot.go`, paired with
the list of chat completion requests it submitted (always exactly one).
The Go return `resp.Choices[0].Message.Content` is unguarded, so a
successful call with zero choices panics. -/
def generateFinalAnswerFromOpenAI (env : BotEnv) (query : String)
    (mtchs : QueryVectorsResponse) :
    CompletionOutcome × List ChatCompletionRequest :=
  (match env.createChatCompletion (chatRequestFor env query mtchs) with
   | .error e => .error ("GPT-4 не зміг згенерувати відповідь: " ++ e)
   | .ok resp =>
     match resp.choices with
     | [] => .panic
     | c :: _ => .answer c.message.content,
   [chatRequestFor env query mtchs])

/- ## Upload paths and the text handler -/

/-- What a handler run sent back to the user; `panicked` marks a Go
runtime panic escaping the handler. -/
inductive Reply where
  | msg (text : String)
  | panicked
deriving DecidableEq

/-- The observable behaviour of one handler run: the reply plus every
request submitted to each external service. -/
structure BotTrace where
  reply : Reply
  embedRequests : List EmbeddingRequest
  searchRequests : List QueryByVectorValuesRequest
  completionRequests : List ChatCompletionRequest
  upsertRequests : List (List PineconeVector)

/-- A trace that only replies and calls no external service. -/
def noCallTrace (r : Reply) : BotTrace :=
  { reply := r, embedRequests := [], searchRequests := [],
    completionRequests := [], upsertRequests := [] }

/-- Go map access plus type assertion `jsonData["text"].(string)`:
`some s` exactly when the key is present with a string value. -/
def jsonLookupString (m : JsonObject) (key : String) : Option String :=
  match m.lookup key with
  | some (JsonValue.str s) => some s
  | _ => none

/-- `extractTextFromPDF` from `src/unnamed/part_000`: a stub that always
returns the placeholder text with a nil error. -/
def extractTextFromPDF (_fileBytes : List UInt8) : Except String String :=
  .ok "Text from PDF"

/-- `processAndUploadPDF` from `src/unnamed/part_000`. -/
def processAndUploadPDF (env : BotEnv) (fileBytes : List UInt8) (fileName : String) :
    BotTrace :=
  match extractTextFromPDF fileBytes with
  | .error _ => noCallTrace (.msg "Помилка обробки PDF файла.")
  | .ok text =>
    let emb := getQueryEmbeddingFromOpenAI env text
    match emb.1 with
    | .error _ =>
      { reply := .msg "Помилка векторизації тексту з PDF.",
        embedRequests := emb.2, searchRequests := [],
        completionRequests := [], upsertRequests := [] }
    | .ok queryEmbedding =>
      let up := upsertVectorToPinecone env queryEmbedding
        [("file", .str fileName), ("text", .str text)]
      match up.1 with
      | .error _ =>
        { reply := .msg "Помилка завантаження даних у Pinecone.",
          embedRequests := emb.2, searchRequests := [],
          completionRequests := [], upsertRequests := up.2 }
      | .ok _ =>
        { reply := .msg "PDF успішно завантажено та додано до векторної бази.",
          embedRequests := emb.2, searchRequests := [],
          completionRequests := [], upsertRequests := up.2 }

/-- `processAndUploadJSON` from `src/unnamed/part_000`. -/
def processAndUploadJSON (env : BotEnv) (fileBytes : List UInt8) (_fileName : String) :
    BotTrace :=
  match env.jsonDecode fileBytes with
  | .error _ => noCallTrace (.msg "Помилка обробки JSON файла.")
  | .ok jsonData =>
    match jsonLookupString jsonData "text" with
    | some text =>
      let emb := getQueryEmbeddingFromOpenAI env text
      match emb.1 with
      | .error _ =>
        { reply := .msg "Помилка векторизації тексту з JSON.",
          embedRequests := emb.2, searchRequests := [],
          completionRequests := [], upsertRequests := [] }
      | .ok queryEmbedding =>
        let up := upsertVectorToPinecone env queryEmbedding jsonData
        match up.1 with
        | .error _ =>
          { reply := .msg "Помилка завантаження даних з JSON у Pinecone.",
            embedRequests := emb.2, searchRequests := [],
            completionRequests := [], upsertRequests := up.2 }
        | .ok _ =>
          { reply := .msg "JSON успішно завантажено та додано до векторної бази.",
            embedRequests := emb.2, searchRequests := [],
            completionRequests := [], upsertRequests := up.2 }
    | none => noCallTrace (.msg "JSON не містить текстових даних для векторизації.")

/-- The text block the XML path accumulates over the catalog's offers. -/
def offersText (offers : List Offer) : String :=
  offers.foldl
    (fun acc offer =>
      acc ++ "Назва: " ++ cleanText offer.name ++ "\nОпис: "
        ++ cleanText offer.description ++ "\nЦіна: " ++ offer.price ++ "\n\n")
    ""

/-- `processAndUploadXML` from `src/cmd/aibot.go`. -/
def processAndUploadXML (env : BotEnv) (fileBytes : List UInt8) (fileName : String) :
    BotTrace :=
  match env.xmlDecode fileBytes with
  | .error _ => noCallTrace (.msg "Помилка обробки XML файла.")
  | .ok catalog =>
    let textContent := offersText catalog.offers
    let emb := getQueryEmbeddingFromOpenAI env textContent
    match emb.1 with
    | .error _ =>
      { reply := .msg "Помилка векторизації тексту з XML.",
        embedRequests := emb.2, searchRequests := [],
        completionRequests := [], upsertRequests := [] }
    | .ok queryEmbedding =>
      let up := upsertVectorToPinecone env queryEmbedding
        [("file", .str fileName), ("text", .str textContent)]
      match up.1 with
      | .error _ =>
        { reply := .msg "Помилка завантаження даних у Pinecone.",
          embedRequests := emb.2, searchRequests := [],
          completionRequests := [], upsertRequests := up.2 }
      | .ok _ =>
        { reply := .msg "XML успішно завантажено та додано до векторної бази.",
          embedRequests := emb.2, searchRequests := [],
          completionRequests := [], upsertRequests := up.2 }

/-- The `telebot.OnText` handler of `src/cmd/aibot.go`: URL uploads,
the empty-query guard, then embed → search → compose. -/
def handleOnText (env : BotEnv) (userQuery : String) : BotTrace :=
  if isURL userQuery then
    match env.download userQuery with
    | .error e => noCallTrace (.msg ("Помилка завантаження файлу: " ++ e))
    | .ok fileBytes =>
      if isXML userQuery then processAndUploadXML env fileBytes "external_file.xml"
      else if isJSON userQuery then processAndUploadJSON env fileBytes "external_file.json"
      else if isPDF userQuery then processAndUploadPDF env fileBytes "external_file.pdf"
      else noCallTrace (.msg "Невідомий формат файлу. Підтримуються тільки XML, JSON або PDF.")
  else if userQuery = "" then
    noCallTrace (.msg "Будь ласка, введіть запит.")
  else
    let emb := getQueryEmbeddingFromOpenAI env userQuery
    match emb.1 with
    | .error e =>
      { reply := .msg ("Помилка у генерації вектору через OpenAI: " ++ e),
        embedRequests := emb.2, searchRequests := [],
        completionRequests := [], upsertRequests := [] }
    | .ok queryEmbedding =>
      let sr := searchPinecone env queryEmbedding
      match sr.1 with
      | .error _ =>
        { reply := .msg "Не знайдено релевантних збігів у Pinecone.",
          embedRequests := emb.2, searchRequests := sr.2,
          completionRequests := [], upsertRequests := [] }
      | .ok mtchs =>
        if mtchs.Matches.length = 0 then
          { reply := .msg "Не знайдено релевантних збігів у Pinecone.",
            embedRequests := emb.2, searchRequests := sr.2,
            completionRequests := [], upsertRequests := [] }
        else
          let ans := generateFinalAnswerFromOpenAI env userQuery mtchs
          { reply :=
              match ans.1 with
              | .error e => .msg ("GPT-4 не зміг згенерувати відповідь: " ++ e)
              | .panic => .panicked
              | .answer a => .msg a,
            embedRequests := emb.2, searchRequests := sr.2,
            completionRequests := ans.2, upsertRequests := [] }

/-- A base environment for concrete evaluations: every Pinecone step
succeeds, every OpenAI call and decoder fails, the clock reads zero. -/
def baseEnv : BotEnv :=
  { createEmbeddings := fun _ => .error ""
    createChatCompletion := fun _ => .error ""
    marshal := fun _ => ""
    pcNewClient := .ok ()
    pcConnect := fun _ => .ok ()
    pcToStruct := fun m => .ok m
    pcQuery := fun _ => .error ""
    pcUpsert := fun _ => .ok ()
    xmlDecode := fun _ => .error ""
    jsonDecode := fun _ => .error ""
    download := fun _ => .error ""
    now := 0 }

/- ## Helper unfolding lemmas -/

theorem getQueryEmbedding_fst (env : BotEnv) (query : String) :
    (getQueryEmbeddingFromOpenAI env query).1 =
      match env.createEmbeddings (embeddingRequestFor query) with
      | .error e => .error ("Помилка створення ембеддингів через OpenAI: " ++ e)
      | .ok resp =>
        match resp.data with
        | [] => .error "OpenAI не повернув векторів."
        | d :: _ => .ok d.embedding := rfl

theorem generateFinalAnswer_fst (env : BotEnv) (query : String)
    (mtchs : QueryVectorsResponse) :
    (generateFinalAnswerFromOpenAI env query mtchs).1 =
      match env.createChatCompletion (chatRequestFor env query mtchs) with
      | .error e => .error ("GPT-4 не зміг згенерувати відповідь: " ++ e)
      | .ok resp =>
        match resp.choices with
        | [] => .panic
        | c :: _ => .answer c.message.content := rfl

/- ## C5: embedding client error contract -/

/-- C5: for every input text, `getQueryEmbeddingFromOpenAI` submits
exactly one embedding request (model `text-embedding-ada-002`, single
input string), returns an error exactly when the provider call fails or
the response has zero data entries, and otherwise returns element zero's
embedding. -/
theorem getQueryEmbedding_error_iff (env : BotEnv) (query : String) :
    ((getQueryEmbeddingFromOpenAI env query).2 = [embeddingRequestFor query]) ∧
    ((∃ msg, (getQueryEmbeddingFromOpenAI env query).1 = .error msg) ↔
      (∃ e, env.createEmbeddings (embeddingRequestFor query) = .error e) ∨
      (∃ resp, env.createEmbeddings (embeddingRequestFor query) = .ok resp ∧
        resp.data = [])) ∧
    (∀ resp d rest, env.createEmbeddings (embeddingRequestFor query) = .ok resp →
      resp.data = d :: rest →
      (getQueryEmbeddingFromOpenAI env query).1 = .ok d.embedding) := by
  refine ⟨rfl, ?_, ?_⟩
  · cases hc : env.createEmbeddings (embeddingRequestFor query) with
    | error e =>
      constructor
      · intro _
        exact .inl ⟨e, rfl⟩
      · intro _
        exact ⟨"Помилка створення ембеддингів через OpenAI: " ++ e,
          by simp only [getQueryEmbedding_fst, hc]⟩
    | ok resp =>
      cases hd : resp.data with
      | nil =>
        constructor
        · intro _
          exact .inr ⟨resp, rfl, hd⟩
        · intro _
          exact ⟨"OpenAI не повернув векторів.",
            by simp only [getQueryEmbedding_fst, hc, hd]⟩
      | cons d rest =>
        constructor
        · rintro ⟨msg, hmsg⟩
          simp only [getQueryEmbedding_fst, hc, hd] at hmsg
          exact Except.noConfusion hmsg
        · rintro (⟨e, he⟩ | ⟨resp', hresp', hdata⟩)
          · exact Except.noConfusion he
          · rw [Except.ok.injEq] at hresp'
            rw [hresp'] at hd
            rw [hd] at hdata
            exact List.noConfusion hdata
  · intro resp d rest h1 h2
    simp only [getQueryEmbedding_fst, h1, h2]

/-- Concrete run of `getQueryEmbedding_error_iff`: a provider returning
one vector yields that vector. -/
theorem getQueryEmbedding_error_iff_witness :
    (getQueryEmbeddingFromOpenAI
        { baseEnv with createEmbeddings := fun _ => .ok ⟨[⟨[]⟩]⟩ }
        "query").1 = .ok [] :=
  (getQueryEmbedding_error_iff
      { baseEnv with createEmbeddings := fun _ => .ok ⟨[⟨[]⟩]⟩ }
      "query").2.2 ⟨[⟨[]⟩]⟩ ⟨[]⟩ [] rfl rfl

/- ## C1: answer composer (corrected) -/

/-- C1 counterexample: a successful completion call whose choices list is
empty makes `generateFinalAnswerFromOpenAI` panic (Go index out of
range), not return an error. -/
theorem generateFinalAnswer_empty_choices_panics :
    (generateFinalAnswerFromOpenAI
        { baseEnv with createChatCompletion := fun _ => .ok ⟨[]⟩ }
        "" ⟨[]⟩).1 = CompletionOutcome.panic ∧
    outcomeIsError (generateFinalAnswerFromOpenAI
        { baseEnv with createChatCompletion := fun _ => .ok ⟨[]⟩ }
        "" ⟨[]⟩).1 = false :=
  ⟨rfl, rfl⟩

/-- C1 (amended): `generateFinalAnswerFromOpenAI` submits exactly one
completion request; it returns the first choice's text when the call
succeeds with at least one choice, returns an error when the call fails,
and panics (rather than returning an error) when the call succeeds with
zero choices. -/
theorem generateFinalAnswer_cases (env : BotEnv) (query : String)
    (mtchs : QueryVectorsResponse) :
    ((generateFinalAnswerFromOpenAI env query mtchs).2 =
      [chatRequestFor env query mtchs]) ∧
    (∀ e, env.createChatCompletion (chatRequestFor env query mtchs) = .error e →
      (generateFinalAnswerFromOpenAI env query mtchs).1 =
        .error ("GPT-4 не зміг згенерувати відповідь: " ++ e)) ∧
    (∀ resp c rest, env.createChatCompletion (chatRequestFor env query mtchs) = .ok resp →
      resp.choices = c :: rest →
      (generateFinalAnswerFromOpenAI env query mtchs).1 = .answer c.message.content) ∧
    (∀ resp, env.createChatCompletion (chatRequestFor env query mtchs) = .ok resp →
      resp.choices = [] →
      (generateFinalAnswerFromOpenAI env query mtchs).1 = .panic) := by
  refine ⟨rfl, ?_, ?_, ?_⟩
  · intro e he
    simp only [generateFinalAnswer_fst, he]
  · intro resp c rest h1 h2
    simp only [generateFinalAnswer_fst, h1, h2]
  · intro resp h1 h2
    simp only [generateFinalAnswer_fst, h1, h2]

/-- Concrete run of `generateFinalAnswer_cases`: one choice returned,
its text is the answer. -/
theorem generateFinalAnswer_cases_witness :
    (generateFinalAnswerFromOpenAI
        { baseEnv with createChatCompletion := fun _ => .ok ⟨[⟨⟨"assistant", "відповідь"⟩⟩]⟩ }
        "q" ⟨[]⟩).1 = CompletionOutcome.answer "відповідь" :=
  (generateFinalAnswer_cases
      { baseEnv with createChatCompletion := fun _ => .ok ⟨[⟨⟨"assistant", "відповідь"⟩⟩]⟩ }
      "q" ⟨[]⟩).2.2.1
    ⟨[⟨⟨"assistant", "відповідь"⟩⟩]⟩ ⟨⟨"assistant", "відповідь"⟩⟩ [] rfl rfl

/- ## C4 / C10: JSON upload without a usable `text` field -/

/-- C4: when the JSON payload decodes to an object with no string-valued
`"text"` key, `processAndUploadJSON` replies with the "no text to
vectorize" message and submits no embedding and no upsert request. -/
theorem processAndUploadJSON_no_text_no_calls (env : BotEnv)
    (fileBytes : List UInt8) (fileName : String) (jsonData : JsonObject)
    (hdec : env.jsonDecode fileBytes = .ok jsonData)
    (hno : ∀ s : String, jsonData.lookup "text" ≠ some (JsonValue.str s)) :
    processAndUploadJSON env fileBytes fileName =
      noCallTrace (.msg "JSON не містить текстових даних для векторизації.") := by
  simp only [processAndUploadJSON, hdec]
  have h : jsonLookupString jsonData "text" = none := by
    unfold jsonLookupString
    cases hv : jsonData.lookup "text" with
    | none => rfl
    | some v =>
      cases v with
      | str s => exact absurd hv (hno s)
      | num x => rfl
      | bool b => rfl
      | null => rfl
      | arr xs => rfl
      | obj fields => rfl
  simp only [h]

/-- Concrete run of `processAndUploadJSON_no_text_no_calls`: an object
with only an unrelated key. -/
theorem processAndUploadJSON_no_text_no_calls_witness :
    processAndUploadJSON
        { baseEnv with jsonDecode := fun _ => .ok [("a", JsonValue.num 1)] }
        [] "file.json" =
      noCallTrace (.msg "JSON не містить текстових даних для векторизації.") := by
  have key : (List.lookup "text" [("a", JsonValue.num 1)] : Option JsonValue) = none := rfl
  exact processAndUploadJSON_no_text_no_calls
    { baseEnv with jsonDecode := fun _ => .ok [("a", JsonValue.num 1)] }
    [] "file.json" [("a", JsonValue.num 1)] rfl
    (fun s h => by rw [key] at h; exact Option.noConfusion h)

/-- C10: a `"text"` key whose value is not a string behaves exactly like
an absent key: the "no text to vectorize" reply, no embedding and no
upsert request. -/
theorem processAndUploadJSON_nonstring_text_no_calls (env : BotEnv)
    (fileBytes : List UInt8) (fileName : String) (jsonData : JsonObject)
    (v : JsonValue)
    (hdec : env.jsonDecode fileBytes = .ok jsonData)
    (hv : jsonData.lookup "text" = some v)
    (hns : ∀ s : String, v ≠ JsonValue.str s) :
    processAndUploadJSON env fileBytes fileName =
      noCallTrace (.msg "JSON не містить текстових даних для векторизації.") := by
  simp only [processAndUploadJSON, hdec]
  have h : jsonLookupString jsonData "text" = none := by
    unfold jsonLookupString
    rw [hv]
    cases v with
    | str s => exact absurd rfl (hns s)
    | num x => rfl
    | bool b => rfl
    | null => rfl
    | arr xs => rfl
    | obj fields => rfl
  simp only [h]

/-- Concrete run of `processAndUploadJSON_nonstring_text_no_calls`: the
`"text"` key holds a number. -/
theorem processAndUploadJSON_nonstring_text_no_calls_witness :
    processAndUploadJSON
        { baseEnv with jsonDecode := fun _ => .ok [("text", JsonValue.num 42)] }
        [] "file.json" =
      noCallTrace (.msg "JSON не містить текстових даних для векторизації.") :=
  processAndUploadJSON_nonstring_text_no_calls
    { baseEnv with jsonDecode := fun _ => .ok [("text", JsonValue.num 42)] }
    [] "file.json" [("text", JsonValue.num 42)] (JsonValue.num 42) rfl rfl
    (fun s h => JsonValue.noConfusion h)

/- ## C9: upsert record identity -/

/-- C9: every successful `upsertVectorToPinecone` call submits exactly
one record, whose identifier is `"doc-"` followed by the Unix-seconds
clock value; two successful upserts under the same clock second produce
the same identifier. -/
theorem upsert_single_timestamped_record (env env' : BotEnv)
    (emb emb' : List Float) (md md' : JsonObject)
    (hnow : env'.now = env.now)
    (h : (upsertVectorToPinecone env emb md).1 = .ok ())
    (h' : (upsertVectorToPinecone env' emb' md').1 = .ok ()) :
    upsertIds (upsertVectorToPinecone env emb md) = ["doc-" ++ toString env.now] ∧
    upsertIds (upsertVectorToPinecone env' emb' md') = ["doc-" ++ toString env.now] := by
  have key : ∀ (e : BotEnv) (v : List Float) (m : JsonObject),
      (upsertVectorToPinecone e v m).1 = .ok () →
      upsertIds (upsertVectorToPinecone e v m) = ["doc-" ++ toString e.now] := by
    intro e v m hok
    cases hc1 : e.pcNewClient with
    | error x => simp [upsertVectorToPinecone, hc1] at hok
    | ok u1 =>
      cases hc2 : e.pcConnect "host-url" with
      | error x => simp [upsertVectorToPinecone, hc1, hc2] at hok
      | ok u2 =>
        cases hc3 : e.pcToStruct m with
        | error x => simp [upsertVectorToPinecone, hc1, hc2, hc3] at hok
        | ok ms =>
          cases hc4 : e.pcUpsert
              [{ id := "doc-" ++ toString e.now, values := v, metadata := ms }] with
          | error x =>
            simp [upsertVectorToPinecone, upsertIds, hc1, hc2, hc3, hc4]
          | ok u4 =>
            simp [upsertVectorToPinecone, upsertIds, hc1, hc2, hc3, hc4]
  exact ⟨key env emb md h, hnow ▸ key env' emb' md' h'⟩

/-- Concrete run of `upsert_single_timestamped_record`: two successful
upserts at clock 0 both write the single identifier `doc-0`. -/
theorem upsert_single_timestamped_record_witness :
    upsertIds (upsertVectorToPinecone baseEnv [] []) =
      ["doc-" ++ toString (0 : Int)] ∧
    upsertIds (upsertVectorToPinecone baseEnv [] [("k", JsonValue.str "v")]) =
      ["doc-" ++ toString (0 : Int)] :=
  upsert_single_timestamped_record baseEnv baseEnv [] [] [] [("k", JsonValue.str "v")]
    rfl rfl rfl

/- ## C8: empty XML catalog still embeds the empty string -/

/-- C8: an XML payload decoding to a catalog with zero offers produces
the empty text block and still submits one embedding request whose input
is the empty string. -/
theorem processAndUploadXML_empty_catalog_embeds_empty (env : BotEnv)
    (fileBytes : List UInt8) (fileName : String)
    (hdec : env.xmlDecode fileBytes = .ok { offers := [] }) :
    offersText [] = "" ∧
    (processAndUploadXML env fileBytes fileName).embedRequests =
      [embeddingRequestFor ""] := by
  refine ⟨rfl, ?_⟩
  unfold processAndUploadXML
  rw [hdec]
  have hot : offersText ([] : List Offer) = "" := rfl
  simp only [hot]
  cases hemb : (getQueryEmbeddingFromOpenAI env "").1 with
  | error e => rfl
  | ok vec =>
    cases hup : (upsertVectorToPinecone env vec
        [("file", .str fileName), ("text", .str "")]).1 with
    | error e =>
      simp only [hemb, hup]
      rfl
    | ok u =>
      simp only [hemb, hup]
      rfl

/-- Concrete run of `processAndUploadXML_empty_catalog_embeds_empty`. -/
theorem processAndUploadXML_empty_catalog_embeds_empty_witness :
    offersText [] = "" ∧
    (processAndUploadXML
        { baseEnv with xmlDecode := fun _ => .ok { offers := [] } }
        [] "catalog.xml").embedRequests = [embeddingRequestFor ""] :=
  processAndUploadXML_empty_catalog_embeds_empty
    { baseEnv with xmlDecode := fun _ => .ok { offers := [] } }
    [] "catalog.xml" rfl

/- ## C6 / C7: text handler routing -/

/-- C6: on the empty inbound text, the handler replies with the literal
prompt asking for a query and submits no embedding, search, completion
or upsert request. -/
theorem handleOnText_empty_query (env : BotEnv) :
    handleOnText env "" = noCallTrace (.msg "Будь ласка, введіть запит.") := by
  have h1 : isURL "" = false := by decide
  simp only [handleOnText, h1, Bool.false_eq_true, if_false]
  simp

/-- Concrete run of `handleOnText_empty_query`. -/
theorem handleOnText_empty_query_witness :
    handleOnText baseEnv "" = noCallTrace (.msg "Будь ласка, введіть запит.") :=
  handleOnText_empty_query baseEnv

/-- C7: when the (non-URL, non-empty) query embeds successfully and the
vector search succeeds with zero matches, the handler replies with the
literal "no relevant matches" message and submits no completion request;
the empty result is a reply, not a panic or propagated error. -/
theorem handleOnText_no_matches_no_completion (env : BotEnv)
    (userQuery : String) (vec : List Float) (resp : QueryVectorsResponse)
    (hurl : isURL userQuery = false) (hne : userQuery ≠ "")
    (hemb : (getQueryEmbeddingFromOpenAI env userQuery).1 = .ok vec)
    (hsearch : (searchPinecone env vec).1 = .ok resp)
    (hempty : resp.Matches = []) :
    handleOnText env userQuery =
      { reply := .msg "Не знайдено релевантних збігів у Pinecone.",
        embedRequests := (getQueryEmbeddingFromOpenAI env userQuery).2,
        searchRequests := (searchPinecone env vec).2,
        completionRequests := [], upsertRequests := [] } := by
  simp only [handleOnText, hurl, Bool.false_eq_true, if_false, hne, ite_false,
    hemb, hsearch, hempty, List.length_nil, ite_true]

/-- Concrete run of `handleOnText_no_matches_no_completion`: embedding
succeeds, the search reports zero matches. -/
theorem handleOnText_no_matches_no_completion_witness :
    handleOnText
        { baseEnv with
            createEmbeddings := fun _ => .ok ⟨[⟨[]⟩]⟩
            pcQuery := fun _ => .ok ⟨[]⟩ }
        "hi" =
      { reply := .msg "Не знайдено релевантних збігів у Pinecone.",
        embedRequests :=
          (getQueryEmbeddingFromOpenAI
            { baseEnv with
                createEmbeddings := fun _ => .ok ⟨[⟨[]⟩]⟩
                pcQuery := fun _ => .ok ⟨[]⟩ } "hi").2,
        searchRequests :=
          (searchPinecone
            { baseEnv with
                createEmbeddings := fun _ => .ok ⟨[⟨[]⟩]⟩
                pcQuery := fun _ => .ok ⟨[]⟩ } []).2,
        completionRequests := [], upsertRequests := [] } :=
  handleOnText_no_matches_no_completion
    { baseEnv with
        createEmbeddings := fun _ => .ok ⟨[⟨[]⟩]⟩
        pcQuery := fun _ => .ok ⟨[]⟩ }
    "hi" [] ⟨[]⟩ (by decide) (by decide) rfl rfl rfl

/- ## C2: file classification by suffix (corrected) -/

theorem isPDF_iff (s : String) :
    isPDF s = true ↔ 4 < s.data.length ∧ ".pdf".data <:+ s.data := by
  unfold isPDF
  simp only [Bool.and_eq_true, decide_eq_true_eq, gt_iff_lt]
  constructor
  · rintro ⟨h1, h2⟩
    refine ⟨h1, ?_⟩
    rw [List.suffix_iff_eq_drop]
    exact h2.symm
  · rintro ⟨h1, h2⟩
    refine ⟨h1, ?_⟩
    rw [List.suffix_iff_eq_drop] at h2
    exact h2.symm

theorem isJSON_iff (s : String) :
    isJSON s = true ↔ 5 < s.data.length ∧ ".json".data <:+ s.data := by
  unfold isJSON
  simp only [Bool.and_eq_true, decide_eq_true_eq, gt_iff_lt]
  constructor
  · rintro ⟨h1, h2⟩
    refine ⟨h1, ?_⟩
    rw [List.suffix_iff_eq_drop]
    exact h2.symm
  · rintro ⟨h1, h2⟩
    refine ⟨h1, ?_⟩
    rw [List.suffix_iff_eq_drop] at h2
    exact h2.symm

theorem isXML_iff (s : String) :
    isXML s = true ↔ 4 < s.data.length ∧ ".xml".data <:+ s.data := by
  unfold isXML
  simp only [Bool.and_eq_true, decide_eq_true_eq, gt_iff_lt]
  constructor
  · rintro ⟨h1, h2⟩
    refine ⟨h1, ?_⟩
    rw [List.suffix_iff_eq_drop]
    exact h2.symm
  · rintro ⟨h1, h2⟩
    refine ⟨h1, ?_⟩
    rw [List.suffix_iff_eq_drop] at h2
    exact h2.symm

theorem not_both_pdf_json (s : String) : ¬(isPDF s = true ∧ isJSON s = true) := by
  rintro ⟨hp, hj⟩
  unfold isPDF at hp
  unfold isJSON at hj
  simp only [Bool.and_eq_true, decide_eq_true_eq, gt_iff_lt] at hp hj
  obtain ⟨h1, h2⟩ := hp
  obtain ⟨h3, h4⟩ := hj
  have key : s.data.drop (s.data.length - 4) =
      List.drop 1 (s.data.drop (s.data.length - 5)) := by
    rw [List.drop_drop]
    congr 1
    omega
  rw [h2, h4] at key
  exact absurd key (by decide)

theorem not_both_pdf_xml (s : String) : ¬(isPDF s = true ∧ isXML s = true) := by
  rintro ⟨hp, hx⟩
  unfold isPDF at hp
  unfold isXML at hx
  simp only [Bool.and_eq_true, decide_eq_true_eq, gt_iff_lt] at hp hx
  obtain ⟨h1, h2⟩ := hp
  obtain ⟨h3, h4⟩ := hx
  rw [h2] at h4
  exact absurd h4 (by decide)

theorem not_both_json_xml (s : String) : ¬(isJSON s = true ∧ isXML s = true) := by
  rintro ⟨hj, hx⟩
  unfold isJSON at hj
  unfold isXML at hx
  simp only [Bool.and_eq_true, decide_eq_true_eq, gt_iff_lt] at hj hx
  obtain ⟨h1, h2⟩ := hj
  obtain ⟨h3, h4⟩ := hx
  have key : s.data.drop (s.data.length - 4) =
      List.drop 1 (s.data.drop (s.data.length - 5)) := by
    rw [List.drop_drop]
    congr 1
    omega
  rw [h2, h4] at key
  exact absurd key (by decide)

theorem classifyFile_eq_pdf (s : String) :
    classifyFile s = FileFormat.pdf ↔ isPDF s = true := by
  unfold classifyFile
  cases hp : isPDF s with
  | true => simp
  | false =>
    cases hj : isJSON s with
    | true => simp
    | false =>
      cases hx : isXML s with
      | true => simp
      | false => simp

theorem classifyFile_eq_json (s : String) :
    classifyFile s = FileFormat.json ↔ isPDF s = false ∧ isJSON s = true := by
  unfold classifyFile
  cases hp : isPDF s with
  | true => simp
  | false =>
    cases hj : isJSON s with
    | true => simp
    | false =>
      cases hx : isXML s with
      | true => simp
      | false => simp

theorem classifyFile_eq_xml (s : String) :
    classifyFile s = FileFormat.xml ↔
      isPDF s = false ∧ isJSON s = false ∧ isXML s = true := by
  unfold classifyFile
  cases hp : isPDF s with
  | true => simp
  | false =>
    cases hj : isJSON s with
    | true => simp
    | false =>
      cases hx : isXML s with
      | true => simp
      | false => simp

theorem classifyFile_eq_unknown (s : String) :
    classifyFile s = FileFormat.unknown ↔
      isPDF s = false ∧ isJSON s = false ∧ isXML s = false := by
  unfold classifyFile
  cases hp : isPDF s with
  | true => simp
  | false =>
    cases hj : isJSON s with
    | true => simp
    | false =>
      cases hx : isXML s with
      | true => simp
      | false => simp

/-- C2 counterexample: the bare extension strings end in their own
suffix yet are classified `unknown` (the code requires at least one
character before the suffix). -/
theorem classifyFile_bare_extension_counterexample :
    classifyFile ".pdf" = FileFormat.unknown ∧ ".pdf".data <:+ ".pdf".data ∧
    classifyFile ".json" = FileFormat.unknown ∧ ".json".data <:+ ".json".data ∧
    classifyFile ".xml" = FileFormat.unknown ∧ ".xml".data <:+ ".xml".data :=
  ⟨by decide, List.suffix_refl _, by decide, List.suffix_refl _,
   by decide, List.suffix_refl _⟩

/-- C2 (amended): classification is by case-sensitive suffix match with
at least one character before the suffix: `pdf` exactly for strings of
length above 4 ending in `".pdf"`, `json` exactly for length above 5
ending in `".json"`, `xml` exactly for length above 4 ending in
`".xml"`, and `unknown` for everything else (including the bare
extension strings and uppercase variants). -/
theorem classifyFile_spec (s : String) :
    (classifyFile s = FileFormat.pdf ↔
      4 < s.data.length ∧ ".pdf".data <:+ s.data) ∧
    (classifyFile s = FileFormat.json ↔
      5 < s.data.length ∧ ".json".data <:+ s.data) ∧
    (classifyFile s = FileFormat.xml ↔
      4 < s.data.length ∧ ".xml".data <:+ s.data) ∧
    (classifyFile s = FileFormat.unknown ↔
      ¬(4 < s.data.length ∧ ".pdf".data <:+ s.data) ∧
      ¬(5 < s.data.length ∧ ".json".data <:+ s.data) ∧
      ¬(4 < s.data.length ∧ ".xml".data <:+ s.data)) := by
  have hpj := not_both_pdf_json s
  have hpx := not_both_pdf_xml s
  have hjx := not_both_json_xml s
  refine ⟨?_, ?_, ?_, ?_⟩
  · rw [classifyFile_eq_pdf, isPDF_iff]
  · rw [classifyFile_eq_json, ← isJSON_iff]
    constructor
    · rintro ⟨_, hj⟩
      exact hj
    · intro hj
      refine ⟨?_, hj⟩
      cases hp : isPDF s with
      | false => rfl
      | true => exact absurd ⟨hp, hj⟩ hpj
  · rw [classifyFile_eq_xml, ← isXML_iff]
    constructor
    · rintro ⟨_, _, hx⟩
      exact hx
    · intro hx
      refine ⟨?_, ?_, hx⟩
      · cases hp : isPDF s with
        | false => rfl
        | true => exact absurd ⟨hp, hx⟩ hpx
      · cases hj : isJSON s with
        | false => rfl
        | true => exact absurd ⟨hj, hx⟩ hjx
  · rw [classifyFile_eq_unknown, ← isPDF_iff, ← isJSON_iff, ← isXML_iff]
    simp only [Bool.not_eq_true]

/-- Concrete run of `classifyFile_spec`: `"a.pdf"` is classified PDF. -/
theorem classifyFile_spec_witness :
    classifyFile "a.pdf" = FileFormat.pdf :=
  (classifyFile_spec "a.pdf").1.mpr ⟨by decide, ⟨"a".data, by decide⟩⟩

/- ## C3: tag stripping removes exactly the regex matches, idempotently -/

theorem cleanTextAux_nil : cleanTextAux [] = [] := by
  simp [cleanTextAux]

theorem cleanTextAux_tag (rest rest' : List Char) (h : dropTag rest = some rest') :
    cleanTextAux ('<' :: rest) = cleanTextAux rest' := by
  rw [cleanTextAux]
  split
  · split
    · rename_i r heq
      rw [h] at heq
      injection heq with hh
      rw [hh]
    · rename_i heq
      rw [h] at heq
      exact Option.noConfusion heq
  · rename_i hfalse
    simp at hfalse

theorem cleanTextAux_lt_none (rest : List Char) (h : dropTag rest = none) :
    cleanTextAux ('<' :: rest) = '<' :: cleanTextAux rest := by
  rw [cleanTextAux]
  split
  · split
    · rename_i r heq
      rw [h] at heq
      exact Option.noConfusion heq
    · rfl
  · rename_i hfalse
    simp at hfalse

theorem cleanTextAux_other (c : Char) (rest : List Char) (h : ¬c = '<') :
    cleanTextAux (c :: rest) = c :: cleanTextAux rest := by
  rw [cleanTextAux]
  simp [h]

theorem dropTag_decomp : ∀ l r, dropTag l = some r →
    ∃ mid, l = mid ++ '>' :: r ∧ '>' ∉ mid := by
  intro l
  induction l with
  | nil => intro r h; simp [dropTag] at h
  | cons c rest ih =>
    intro r h
    by_cases hc : c = '>'
    · subst hc
      simp [dropTag] at h
      subst h
      exact ⟨[], rfl, by simp⟩
    · simp [dropTag, hc] at h
      obtain ⟨mid, hmid, hnot⟩ := ih r h
      refine ⟨c :: mid, by simp [hmid], ?_⟩
      intro hm
      rcases List.mem_cons.mp hm with h1 | h2
      · exact hc h1.symm
      · exact hnot h2

theorem dropTag_eq_none : ∀ l, dropTag l = none → '>' ∉ l := by
  intro l
  induction l with
  | nil => intro _ h; simp at h
  | cons c rest ih =>
    intro h hm
    by_cases hc : c = '>'
    · simp [dropTag, hc] at h
    · simp [dropTag, hc] at h
      rcases List.mem_cons.mp hm with h1 | h2
      · exact hc h1.symm
      · exact ih h h2

theorem dropTag_of_not_mem : ∀ l, '>' ∉ l → dropTag l = none := by
  intro l
  induction l with
  | nil => intro _; rfl
  | cons c rest ih =>
    intro h
    have hc : ¬c = '>' := fun hc => h (by simp [hc])
    have hrest : '>' ∉ rest := fun hm => h (List.mem_cons_of_mem c hm)
    simp [dropTag, hc]
    exact ih hrest

theorem mem_cleanTextAux : ∀ l x, x ∈ cleanTextAux l → x ∈ l := by
  intro l
  induction l using cleanTextAux.induct with
  | case1 =>
    intro x h
    rw [cleanTextAux_nil] at h
    exact absurd h (List.not_mem_nil x)
  | case2 rest rest' hdrop ih =>
    intro x h
    rw [cleanTextAux_tag rest rest' hdrop] at h
    have hx := ih x h
    obtain ⟨mid, hmid, _⟩ := dropTag_decomp rest rest' hdrop
    rw [hmid]
    simp [hx]
  | case3 rest hdrop ih =>
    intro x h
    rw [cleanTextAux_lt_none rest hdrop] at h
    rcases List.mem_cons.mp h with h1 | h2
    · simp [h1]
    · exact List.mem_cons_of_mem _ (ih x h2)
  | case4 c rest hc ih =>
    intro x h
    rw [cleanTextAux_other c rest hc] at h
    rcases List.mem_cons.mp h with h1 | h2
    · simp [h1]
    · exact List.mem_cons_of_mem _ (ih x h2)

/-- No `<` in the list is followed (anywhere later) by a `>`: the
invariant that makes the stripped text a fixed point of `cleanTextAux`. -/
def tagFree : List Char → Bool
  | [] => true
  | c :: rest => (if c = '<' then !(decide ('>' ∈ rest)) else true) && tagFree rest

theorem tagFree_cleanTextAux : ∀ l, tagFree (cleanTextAux l) = true := by
  intro l
  induction l using cleanTextAux.induct with
  | case1 => rw [cleanTextAux_nil]; rfl
  | case2 rest rest' hdrop ih =>
    rw [cleanTextAux_tag rest rest' hdrop]
    exact ih
  | case3 rest hdrop ih =>
    rw [cleanTextAux_lt_none rest hdrop]
    have hnot : '>' ∉ rest := dropTag_eq_none rest hdrop
    have hnot2 : '>' ∉ cleanTextAux rest := fun hm => hnot (mem_cleanTextAux rest '>' hm)
    simp [tagFree, hnot2, ih]
  | case4 c rest hc ih =>
    rw [cleanTextAux_other c rest hc]
    simp [tagFree, hc, ih]

theorem tagFree_fixed : ∀ l, tagFree l = true → cleanTextAux l = l := by
  intro l
  induction l with
  | nil => intro _; exact cleanTextAux_nil
  | cons c rest ih =>
    intro h
    simp only [tagFree, Bool.and_eq_true] at h
    by_cases hc : c = '<'
    · subst hc
      have h1 : '>' ∉ rest := by
        have := h.1
        simp at this
        exact this
      rw [cleanTextAux_lt_none rest (dropTag_of_not_mem rest h1), ih h.2]
    · rw [cleanTextAux_other c rest hc, ih h.2]

theorem cleanTextAux_idem (l : List Char) :
    cleanTextAux (cleanTextAux l) = cleanTextAux l :=
  tagFree_fixed _ (tagFree_cleanTextAux l)

theorem tagFree_no_tag : ∀ pre l, tagFree l = true →
    ∀ mid post, l ≠ pre ++ '<' :: (mid ++ '>' :: post) := by
  intro pre
  induction pre with
  | nil =>
    intro l hl mid post heq
    subst heq
    simp only [List.nil_append, tagFree, Bool.and_eq_true] at hl
    have h1 := hl.1
    simp at h1
  | cons p ps ih =>
    intro l hl mid post heq
    subst heq
    simp only [List.cons_append, tagFree, Bool.and_eq_true] at hl
    exact ih _ hl.2 mid post rfl

/-- The characters contributed to the input by one decomposition
segment: a kept character or a removed block. -/
def segChars : Char ⊕ List Char → List Char
  | .inl c => [c]
  | .inr tag => tag

/-- The character a segment contributes to the output (kept characters
survive, removed blocks do not). -/
def segKeep : Char ⊕ List Char → Option Char
  | .inl c => some c
  | .inr _ => none

/-- A word of the language of the regex `<[^>]*>`. -/
def TagMatch (l : List Char) : Prop :=
  ∃ mid, l = '<' :: (mid ++ ['>']) ∧ '>' ∉ mid

theorem cleanTextAux_decomp : ∀ l, ∃ segs : List (Char ⊕ List Char),
    l = (segs.map segChars).flatten ∧
    cleanTextAux l = segs.filterMap segKeep ∧
    ∀ tag, Sum.inr tag ∈ segs → TagMatch tag := by
  intro l
  induction l using cleanTextAux.induct with
  | case1 =>
    exact ⟨[], by simp, by rw [cleanTextAux_nil]; simp, by simp⟩
  | case2 rest rest' hdrop ih =>
    obtain ⟨segs, h1, h2, h3⟩ := ih
    obtain ⟨mid, hmid, hnot⟩ := dropTag_decomp rest rest' hdrop
    refine ⟨.inr ('<' :: (mid ++ ['>'])) :: segs, ?_, ?_, ?_⟩
    · rw [hmid, h1]
      simp [segChars]
    · rw [cleanTextAux_tag rest rest' hdrop, h2]
      simp [List.filterMap_cons, segKeep]
    · intro tag htag
      rcases List.mem_cons.mp htag with h | h
      · have := Sum.inr.inj h
        exact ⟨mid, this, hnot⟩
      · exact h3 tag h
  | case3 rest hdrop ih =>
    obtain ⟨segs, h1, h2, h3⟩ := ih
    refine ⟨.inl '<' :: segs, ?_, ?_, ?_⟩
    · rw [h1]
      simp [segChars]
    · rw [cleanTextAux_lt_none rest hdrop, h2]
      simp [List.filterMap_cons, segKeep]
    · intro tag htag
      rcases List.mem_cons.mp htag with h | h
      · exact Sum.noConfusion h
      · exact h3 tag h
  | case4 c rest hc ih =>
    obtain ⟨segs, h1, h2, h3⟩ := ih
    refine ⟨.inl c :: segs, ?_, ?_, ?_⟩
    · rw [h1]
      simp [segChars]
    · rw [cleanTextAux_other c rest hc, h2]
      simp [List.filterMap_cons, segKeep]
    · intro tag htag
      rcases List.mem_cons.mp htag with h | h
      · exact Sum.noConfusion h
      · exact h3 tag h

/-- C3: `cleanText` decomposes its input into kept characters and
removed blocks, every removed block is a word of `<[^>]*>`, the kept
characters appear unchanged and in order in the output, the output
contains no further `<...>` span, and the function is idempotent. -/
theorem cleanText_strips_tags_idempotent (s : String) :
    (∃ segs : List (Char ⊕ List Char),
      s.data = (segs.map segChars).flatten ∧
      (cleanText s).data = segs.filterMap segKeep ∧
      ∀ tag, Sum.inr tag ∈ segs → TagMatch tag) ∧
    (∀ pre mid post, (cleanText s).data ≠ pre ++ '<' :: (mid ++ '>' :: post)) ∧
    cleanText (cleanText s) = cleanText s := by
  refine ⟨cleanTextAux_decomp s.data, ?_, ?_⟩
  · intro pre mid post
    exact tagFree_no_tag pre _ (tagFree_cleanTextAux s.data) mid post
  · exact congrArg String.mk (cleanTextAux_idem s.data)

/-- Concrete run of `cleanText_strips_tags_idempotent`. -/
theorem cleanText_strips_tags_idempotent_witness :
    cleanText (cleanText "a<b>c") = cleanText "a<b>c" :=
  (cleanText_strips_tags_idempotent "a<b>c").2.2
